import Mathlib

/-!
# Verification of the split-synchronizer core against its specification

Shallow embedding of the split-synchronizer core (Go) in Lean 4.
Each Go function relevant to the checked claims is translated into a pure
Lean function over explicit state; machine integers become `Int`
(the quantities involved — change numbers, counts — never overflow in the
claims under study, and the Go code performs no wrap-around arithmetic on
them).
-/

namespace SplitSync

/-! ## Split changes served from the persistent collection
(`splitio/proxy/controllers.go`, `fetchSplitsFromDB` / `splitChanges`) -/

/-- A row of the persistent split-changes collection
(`persistent.SplitChangesItem`): status, change number and the serialized
split body. -/
structure SplitChangesItem where
  name : String
  status : String
  changeNumber : Int
  json : String
deriving DecidableEq, Repr

/-- `fetchSplitsFromDB` (controllers.go): scans all stored split rows and
keeps the ACTIVE ones with `changeNumber > since`, raising `till`
(initialised to `since`) to the largest change number seen among them.
Returns the selected rows together with `till`. -/
def fetchSplitsFromDB (since : Int) (items : List SplitChangesItem) :
    List SplitChangesItem × Int :=
  items.foldl
    (fun acc split =>
      if split.status = "ACTIVE" ∧ split.changeNumber > since then
        (acc.1 ++ [split],
         if split.changeNumber > acc.2 then split.changeNumber else acc.2)
      else acc)
    ([], since)

theorem fetchSplitsFromDB_invariant (since : Int) (items : List SplitChangesItem)
    (acc : List SplitChangesItem × Int)
    (htill : since ≤ acc.2) (hsel : ∀ s ∈ acc.1, since < s.changeNumber) :
    since ≤ (items.foldl
      (fun acc split =>
        if split.status = "ACTIVE" ∧ split.changeNumber > since then
          (acc.1 ++ [split],
           if split.changeNumber > acc.2 then split.changeNumber else acc.2)
        else acc) acc).2 ∧
    ∀ s ∈ (items.foldl
      (fun acc split =>
        if split.status = "ACTIVE" ∧ split.changeNumber > since then
          (acc.1 ++ [split],
           if split.changeNumber > acc.2 then split.changeNumber else acc.2)
        else acc) acc).1, since < s.changeNumber := by
  induction items generalizing acc with
  | nil => exact ⟨htill, hsel⟩
  | cons hd tl ih =>
    simp only [List.foldl_cons]
    by_cases hc : hd.status = "ACTIVE" ∧ hd.changeNumber > since
    · simp only [if_pos hc]
      apply ih
      · by_cases hgt : hd.changeNumber > acc.2
        · simpa [if_pos hgt] using le_of_lt hc.2
        · simpa [if_neg hgt] using htill
      · intro s hs
        rcases List.mem_append.mp hs with h | h
        · exact hsel s h
        · rcases List.mem_singleton.mp h with rfl
          exact hc.2
    · simp only [if_neg hc]
      exact ih acc htill hsel

/-! ## Segment changes served from the persistent collection
(`splitio/proxy/controllers.go`, `fetchSegmentsFromDB` / `segmentChanges`) -/

/-- A key-delta of a stored segment (`collections.SegmentKey`): key name,
the change number of the delta, and whether the delta removes the key. -/
structure SegmentKey where
  name : String
  changeNumber : Int
  removed : Bool
deriving DecidableEq, Repr

/-- One step of the loop body of `fetchSegmentsFromDB` (controllers.go).
For a delta with `changeNumber > since`: removed keys are appended to
`removed` only when `since > 0`; non-removed keys are appended to `added`;
`till` is raised by any delta when `since > 0`, and only by non-removed
deltas otherwise. -/
def segmentStep (since : Int) (acc : List String × List String × Int)
    (skey : SegmentKey) : List String × List String × Int :=
  if skey.changeNumber > since then
    let added := if skey.removed then acc.1 else acc.1 ++ [skey.name]
    let removed :=
      if skey.removed then
        (if since > 0 then acc.2.1 ++ [skey.name] else acc.2.1)
      else acc.2.1
    let till :=
      if since > 0 then
        (if skey.changeNumber > acc.2.2 then skey.changeNumber else acc.2.2)
      else
        (if skey.removed = false ∧ skey.changeNumber > acc.2.2 then
          skey.changeNumber else acc.2.2)
    (added, removed, till)
  else acc

/-- `fetchSegmentsFromDB` (controllers.go): folds `segmentStep` over the
stored key-deltas of a segment, starting from empty lists and `till = since`.
Returns `(added, removed, till)`. -/
def fetchSegmentsFromDB (since : Int) (keys : List SegmentKey) :
    List String × List String × Int :=
  keys.foldl (segmentStep since) ([], [], since)

/-- Spec-side reading of §3/§4.1: the `added` list of a segmentChanges
payload — names of the non-removed deltas with `changeNumber > since`. -/
def segmentAddedSpec (since : Int) (keys : List SegmentKey) : List String :=
  (keys.filter (fun k => decide (since < k.changeNumber) && !k.removed)).map
    (·.name)

/-- Spec-side reading of §3/§4.1: the `removed` list of a segmentChanges
payload — names of the removed deltas with `changeNumber > since`. -/
def segmentRemovedSpec (since : Int) (keys : List SegmentKey) : List String :=
  (keys.filter (fun k => decide (since < k.changeNumber) && k.removed)).map
    (·.name)

/-- Spec-side reading: `till` as the maximum change number over all deltas
newer than `since` (at least `since`). -/
def segmentTillAllSpec (since : Int) (keys : List SegmentKey) : Int :=
  ((keys.filter (fun k => decide (since < k.changeNumber))).map
    (·.changeNumber)).foldl max since

/-- Spec-side reading: `till` considering only added (non-removed) deltas
newer than `since`. -/
def segmentTillAddsSpec (since : Int) (keys : List SegmentKey) : Int :=
  ((keys.filter (fun k => decide (since < k.changeNumber) && !k.removed)).map
    (·.changeNumber)).foldl max since

/-- The claim C4 as stated, at a given input: for `since < 0` removed is
omitted and till considers only adds; for `since ≥ 0` both lists are
populated from deltas newer than `since` and till is the max delta change
number. -/
def c4ClaimAt (since : Int) (keys : List SegmentKey) : Prop :=
  (since < 0 →
    (fetchSegmentsFromDB since keys).2.1 = [] ∧
    (fetchSegmentsFromDB since keys).2.2 = segmentTillAddsSpec since keys) ∧
  (0 ≤ since →
    (fetchSegmentsFromDB since keys).1 = segmentAddedSpec since keys ∧
    (fetchSegmentsFromDB since keys).2.1 = segmentRemovedSpec since keys ∧
    (fetchSegmentsFromDB since keys).2.2 = segmentTillAllSpec since keys)

instance (since : Int) (keys : List SegmentKey) :
    Decidable (c4ClaimAt since keys) := by
  unfold c4ClaimAt; infer_instance

/-- **C4 counterexample**: at `since = 0` (which the claim places in the
`since ≥ 0` branch) with a single removed delta at change number 5, the code
omits the removal and leaves `till = 0`, while the claim demands
`removed = ["k"]` and `till = 5`: the code branches on `since > 0`, not
`since ≥ 0`. -/
theorem c4_counterexample : ¬ c4ClaimAt 0 [⟨"k", 5, true⟩] := by decide

theorem ite_gt_eq_max (a b : Int) : (if b > a then b else a) = max a b := by
  rcases le_or_lt b a with h | h
  · simp [not_lt.mpr h, max_eq_left h]
  · simp [h, max_eq_right (le_of_lt h)]

theorem segmentFold_pos (since : Int) (hpos : 0 < since)
    (keys : List SegmentKey) :
    ∀ acc : List String × List String × Int,
    keys.foldl (segmentStep since) acc =
      (acc.1 ++ segmentAddedSpec since keys,
       acc.2.1 ++ segmentRemovedSpec since keys,
       ((keys.filter (fun k => decide (since < k.changeNumber))).map
          (·.changeNumber)).foldl max acc.2.2) := by
  induction keys with
  | nil => intro acc; simp [segmentAddedSpec, segmentRemovedSpec]
  | cons k tl ih =>
    intro acc
    by_cases hcn : since < k.changeNumber
    · by_cases hrem : k.removed
      · simp only [List.foldl_cons, segmentStep, if_pos hcn, hrem,
          if_true, if_pos hpos, ite_gt_eq_max, ih]
        simp [segmentAddedSpec, segmentRemovedSpec, hcn, hrem,
          List.filter_cons]
      · simp only [List.foldl_cons, segmentStep, if_pos hcn,
          hrem, if_false, if_pos hpos, ite_gt_eq_max, ih]
        simp [segmentAddedSpec, segmentRemovedSpec, hcn, hrem,
          List.filter_cons]
    · simp only [List.foldl_cons, segmentStep, if_neg hcn, ih]
      simp [segmentAddedSpec, segmentRemovedSpec, hcn, List.filter_cons]

theorem segmentFold_nonpos (since : Int) (hpos : ¬ 0 < since)
    (keys : List SegmentKey) :
    ∀ acc : List String × List String × Int,
    keys.foldl (segmentStep since) acc =
      (acc.1 ++ segmentAddedSpec since keys,
       acc.2.1,
       ((keys.filter (fun k =>
            decide (since < k.changeNumber) && !k.removed)).map
          (·.changeNumber)).foldl max acc.2.2) := by
  induction keys with
  | nil => intro acc; simp [segmentAddedSpec]
  | cons k tl ih =>
    intro acc
    by_cases hcn : since < k.changeNumber
    · by_cases hrem : k.removed
      · simp only [List.foldl_cons, segmentStep, if_pos hcn, hrem,
          if_true, if_neg hpos, ih]
        simp [segmentAddedSpec, hcn, hrem, List.filter_cons]
      · simp only [List.foldl_cons, segmentStep, if_pos hcn, hrem,
          if_false, if_neg hpos, ih]
        simp [segmentAddedSpec, hcn, hrem, List.filter_cons, ite_gt_eq_max]
    · simp only [List.foldl_cons, segmentStep, if_neg hcn, ih]
      simp [segmentAddedSpec, hcn, List.filter_cons]

/-- **C4 amended**: the boundary is `since > 0`, not `since ≥ 0`.
For `since ≤ 0` the removed list is empty and `till` considers only added
deltas; for `since > 0` both lists are populated from deltas with
`changeNumber > since` and `till` is the maximum delta change number
(at least `since`). -/
theorem c4_amended_segment_changes (since : Int) (keys : List SegmentKey) :
    (since ≤ 0 →
      fetchSegmentsFromDB since keys =
        (segmentAddedSpec since keys, [], segmentTillAddsSpec since keys)) ∧
    (0 < since →
      fetchSegmentsFromDB since keys =
        (segmentAddedSpec since keys, segmentRemovedSpec since keys,
          segmentTillAllSpec since keys)) := by
  constructor
  · intro h
    have := segmentFold_nonpos since (not_lt.mpr h) keys ([], [], since)
    simpa [fetchSegmentsFromDB, segmentTillAddsSpec] using this
  · intro h
    have := segmentFold_pos since h keys ([], [], since)
    simpa [fetchSegmentsFromDB, segmentTillAllSpec] using this

/-- Witness for the amended C4 at concrete inputs on both sides of the
boundary. -/
theorem c4_amended_segment_changes_witness :
    (fetchSegmentsFromDB 0 [⟨"k", 5, true⟩] =
      (segmentAddedSpec 0 [⟨"k", 5, true⟩], [],
        segmentTillAddsSpec 0 [⟨"k", 5, true⟩])) ∧
    (fetchSegmentsFromDB 2 [⟨"k", 5, true⟩, ⟨"j", 4, false⟩] =
      (segmentAddedSpec 2 [⟨"k", 5, true⟩, ⟨"j", 4, false⟩],
        segmentRemovedSpec 2 [⟨"k", 5, true⟩, ⟨"j", 4, false⟩],
        segmentTillAllSpec 2 [⟨"k", 5, true⟩, ⟨"j", 4, false⟩])) :=
  ⟨(c4_amended_segment_changes 0 [⟨"k", 5, true⟩]).1 (by decide),
   (c4_amended_segment_changes 2 [⟨"k", 5, true⟩, ⟨"j", 4, false⟩]).2
     (by decide)⟩

/-! ## Timesliced endpoint telemetry
(`TimeslicedProxyEndpointTelemetryImpl.geHistoricForTS` / `unsafeRollover`).
The bucket map `telemetryByTimeSlice` is keyed by int64 timeslice starts;
only the key set matters for the retention claim, so the map is embedded as
the `Finset ℤ` of live bucket keys. The per-bucket atomic counters are
untouched by rollover and are not part of the retention invariant. -/

/-- `keyForTimeSlice` (Go): `curr - (curr % width)`. Timestamps and widths
used by the service are nonnegative, where Go's truncated `%` agrees with
`Int.emod`. -/
def keyForTimeSlice (t width : Int) : Int := t - t % width

/-- `unsafeRollover` (Go): if the bucket count exceeds `maxTimeSlices`, sort
the keys ascending and delete the first `count - maxTimeSlices` of them
(the narrow slice view of older elements); otherwise do nothing. -/
def unsafeRollover (maxTS : Nat) (s : Finset ℤ) : Finset ℤ :=
  if s.card ≤ maxTS then s
  else ((s.sort (· ≤ ·)).drop (s.card - maxTS)).toFinset

/-- `geHistoricForTS` (Go): look the timeslice key up; present means no
structural change; absent means insert a fresh bucket and roll over when the
count exceeds `maxTimeSlices`. -/
def geHistoricForTS (maxTS : Nat) (width ts : Int) (s : Finset ℤ) :
    Finset ℤ :=
  let timeSlice := keyForTimeSlice ts width
  if timeSlice ∈ s then s
  else
    let s' := insert timeSlice s
    if s'.card > maxTS then unsafeRollover maxTS s' else s'

theorem unsafeRollover_card (maxTS : Nat) (s : Finset ℤ)
    (h : maxTS < s.card) : (unsafeRollover maxTS s).card = maxTS := by
  unfold unsafeRollover
  rw [if_neg (not_le.mpr h)]
  have hnd : ((s.sort (· ≤ ·)).drop (s.card - maxTS)).Nodup :=
    (List.drop_sublist _ _).nodup (Finset.sort_nodup _ s)
  rw [List.toFinset_card_of_nodup hnd, List.length_drop,
    Finset.length_sort]
  omega

theorem unsafeRollover_subset (maxTS : Nat) (s : Finset ℤ) :
    unsafeRollover maxTS s ⊆ s := by
  unfold unsafeRollover
  split
  · exact Finset.Subset.refl s
  · intro x hx
    rw [List.mem_toFinset] at hx
    have := (List.drop_sublist _ _).mem hx
    rwa [Finset.mem_sort] at this

theorem unsafeRollover_evicts_oldest (maxTS : Nat) (s : Finset ℤ)
    (h : maxTS < s.card) :
    ∀ x ∈ s, x ∉ unsafeRollover maxTS s →
      ∀ y ∈ unsafeRollover maxTS s, x < y := by
  intro x hxs hxout y hy
  unfold unsafeRollover at hxout hy
  rw [if_neg (not_le.mpr h)] at hxout hy
  rw [List.mem_toFinset] at hxout hy
  set l := s.sort (· ≤ ·) with hl
  set n := s.card - maxTS with hn
  have hsorted : l.Sorted (· < ·) := Finset.sort_sorted_lt s
  have hsplit : l.take n ++ l.drop n = l := List.take_append_drop n l
  have hpar : List.Pairwise (· < ·) (l.take n ++ l.drop n) := by
    rw [hsplit]; exact hsorted
  have hxl : x ∈ l := by rw [hl, Finset.mem_sort]; exact hxs
  have hxl2 : x ∈ l.take n ++ l.drop n := by rw [hsplit]; exact hxl
  have hxtake : x ∈ l.take n := by
    rcases List.mem_append.mp hxl2 with h' | h'
    · exact h'
    · exact absurd h' hxout
  exact (List.pairwise_append.mp hpar).2.2 x hxtake y hy

/-- **C5** (bucket retention invariant): recording into the timesliced
endpoint telemetry preserves `card ≤ maxTimeSlices`, and whenever eviction
runs (bucket count above the maximum) it keeps a subset of exactly
`maxTimeSlices` buckets and every evicted key is smaller than every kept
key — the oldest buckets are deleted, the newest `maxTimeSlices` stay. -/
theorem c5_bucket_retention (maxTS : Nat) (width ts : Int) (s : Finset ℤ) :
    (s.card ≤ maxTS → (geHistoricForTS maxTS width ts s).card ≤ maxTS) ∧
    (maxTS < s.card →
      unsafeRollover maxTS s ⊆ s ∧
      (unsafeRollover maxTS s).card = maxTS ∧
      ∀ x ∈ s, x ∉ unsafeRollover maxTS s →
        ∀ y ∈ unsafeRollover maxTS s, x < y) := by
  constructor
  · intro hcard
    unfold geHistoricForTS
    by_cases hmem : keyForTimeSlice ts width ∈ s
    · simpa [hmem] using hcard
    · simp only [hmem, if_false]
      by_cases hover : (insert (keyForTimeSlice ts width) s).card > maxTS
      · simp only [hover, if_true]
        exact le_of_eq (unsafeRollover_card maxTS _ hover)
      · simpa [hover] using not_lt.mp hover
  · intro h
    exact ⟨unsafeRollover_subset maxTS s, unsafeRollover_card maxTS s h,
      unsafeRollover_evicts_oldest maxTS s h⟩

/-- Witness for C5: a record into a full 2-bucket telemetry stays within
bounds, and rolling a 3-key map over to capacity 1 keeps exactly the newest
key. -/
theorem c5_bucket_retention_witness :
    (geHistoricForTS 2 60 70 {0, 60}).card ≤ 2 ∧
    (unsafeRollover 1 {1, 2, 3} ⊆ {1, 2, 3} ∧
      (unsafeRollover 1 {1, 2, 3}).card = 1 ∧
      ∀ x ∈ ({1, 2, 3} : Finset ℤ), x ∉ unsafeRollover 1 {1, 2, 3} →
        ∀ y ∈ unsafeRollover 1 {1, 2, 3}, x < y) :=
  ⟨(c5_bucket_retention 2 60 70 {0, 60}).1 (by decide),
   (c5_bucket_retention 1 0 0 {1, 2, 3}).2 (by decide)⟩

/-! ## Impressions bulk POST headers (`splitio/api/post.go`,
`PostImpressions`) -/

/-- A single HTTP request header assignment made via `AddHeader`. -/
structure Header where
  name : String
  value : String
deriving DecidableEq, Repr

/-- `strings.Replace(machineIP, ".", "-", -1)`: every dot replaced by a
dash. -/
def dashedIP (machineIP : String) : String :=
  machineIP.map (fun c => if c = '.' then '-' else c)

/-- The headers set by `PostImpressions` (post.go) after `ResetHeaders`:
the SDK version, the machine IP, and a machine name always synthesised as
`ip-` followed by the dashed IP (the function receives no machine name at
all). -/
def postImpressionsHeaders (sdkVersion machineIP : String) : List Header :=
  [⟨"SplitSDKVersion", sdkVersion⟩,
   ⟨"SplitSDKMachineIP", machineIP⟩,
   ⟨"SplitSDKMachineName", "ip-" ++ dashedIP machineIP⟩]

/-- First header value for a given name, as the upstream service reads it. -/
def headerValue (hs : List Header) (n : String) : Option String :=
  (hs.find? (fun h => h.name == n)).map (·.value)

/-- **C8**: every impressions bulk POST carries the sdkVersion in
`SplitSDKVersion` and the machineIP in `SplitSDKMachineIP`, and the
`SplitSDKMachineName` header is `ip-<dashed-ip>` — the machine IP with dots
replaced by dashes, prefixed by `ip-` (the machine name is always absent at
this call, so the default always applies). -/
theorem c8_post_impressions_headers (sdkVersion machineIP : String) :
    headerValue (postImpressionsHeaders sdkVersion machineIP)
        "SplitSDKVersion" = some sdkVersion ∧
    headerValue (postImpressionsHeaders sdkVersion machineIP)
        "SplitSDKMachineIP" = some machineIP ∧
    headerValue (postImpressionsHeaders sdkVersion machineIP)
        "SplitSDKMachineName" = some ("ip-" ++ dashedIP machineIP) := by
  refine ⟨?_, ?_, ?_⟩ <;>
    simp [headerValue, postImpressionsHeaders, List.find?]

/-! ## Stats storage (`splitio/stats/storage.go`) -/

/-- The error returned by `SaveCounter`/`SaveLatency` before
`Initialize` has run (`notStorageInitialiazedError`). -/
inductive StatsError
  | notInitialized
deriving DecidableEq, Repr

/-- `lastStoredLatencies` (storage.go). -/
def lastStoredLatencies : Nat := 500

/-- The package-level state of `splitio/stats/storage.go`:
`storageInitialized`, the counters map. and the latencies map (Go maps
embedded as association lists; a missing counter reads as 0 and a missing
latency list as empty, as Go zero values do). -/
structure StatsState where
  initialized : Bool
  counters : List (String × Int)
  latencies : List (String × List Int)
deriving DecidableEq, Repr

/-- `Initialize` (storage.go): fresh counter and latency storages, flag
set. -/
def initializeStats (_s : StatsState) : StatsState := ⟨true, [], []⟩

/-- `CounterStorage.Add`: `c.counters[name] += value` on a Go map (a
missing key reads as zero). -/
def countersAdd : List (String × Int) → String → Int → List (String × Int)
  | [], n, v => [(n, v)]
  | (k, x) :: rest, n, v =>
      if k = n then (k, x + v) :: rest else (k, x) :: countersAdd rest n v

/-- Read a counter (missing key reads as the Go zero value 0). -/
def counterValue : List (String × Int) → String → Int
  | [], _ => 0
  | (k, x) :: rest, n => if k = n then x else counterValue rest n

/-- The trim step of `LatencyStorage.Add`: keep only the last
`lastStoredLatencies` entries when the list grows beyond that bound. -/
def trimLatencies (l : List Int) : List Int :=
  if l.length > lastStoredLatencies then l.drop (l.length - lastStoredLatencies)
  else l

/-- `LatencyStorage.Add`: append the given values to the named list
(created empty when missing) and trim to the last `lastStoredLatencies`. -/
def latenciesAdd : List (String × List Int) → String → List Int →
    List (String × List Int)
  | [], n, vs => [(n, trimLatencies vs)]
  | (k, x) :: rest, n, vs =>
      if k = n then (k, trimLatencies (x ++ vs)) :: rest
      else (k, x) :: latenciesAdd rest n vs

/-- Read a latency list (missing key reads as the empty slice). -/
def latenciesValue : List (String × List Int) → String → List Int
  | [], _ => []
  | (k, x) :: rest, n => if k = n then x else latenciesValue rest n

/-- `SaveCounter` (storage.go). -/
def SaveCounter (name : String) (value : Int) (s : StatsState) :
    Option StatsError × StatsState :=
  if s.initialized = false then (some .notInitialized, s)
  else (none, { s with counters := countersAdd s.counters name value })

/-- `SaveLatency` (storage.go). -/
def SaveLatency (name : String) (values : List Int) (s : StatsState) :
    Option StatsError × StatsState :=
  if s.initialized = false then (some .notInitialized, s)
  else (none, { s with latencies := latenciesAdd s.latencies name values })

theorem counterValue_countersAdd (cs : List (String × Int)) (n : String)
    (v : Int) : counterValue (countersAdd cs n v) n = counterValue cs n + v := by
  induction cs with
  | nil => simp [countersAdd, counterValue]
  | cons hd tl ih =>
    obtain ⟨k, x⟩ := hd
    by_cases hk : k = n
    · simp [countersAdd, counterValue, hk]
    · simp [countersAdd, counterValue, hk, ih]

theorem latenciesValue_latenciesAdd (ls : List (String × List Int))
    (n : String) (vs : List Int) :
    latenciesValue (latenciesAdd ls n vs) n =
      trimLatencies (latenciesValue ls n ++ vs) := by
  induction ls with
  | nil => simp [latenciesAdd, latenciesValue]
  | cons hd tl ih =>
    obtain ⟨k, x⟩ := hd
    by_cases hk : k = n
    · simp [latenciesAdd, latenciesValue, hk]
    · simp [latenciesAdd, latenciesValue, hk, ih]

/-- **C10**: `SaveCounter` and `SaveLatency` called on a non-initialized
state return the storage-not-initialized error and leave the state
untouched; `Initialize` marks the state initialized, and on any initialized
state both calls return nil and record the given value under the given
name (counters accumulate, latency lists append and keep the last 500). -/
theorem c10_stats_initialization_contract (s : StatsState) (name : String)
    (value : Int) (values : List Int) (hinit : s.initialized = false) :
    SaveCounter name value s = (some .notInitialized, s) ∧
    SaveLatency name values s = (some .notInitialized, s) ∧
    (initializeStats s).initialized = true ∧
    ∀ t : StatsState, t.initialized = true →
      (SaveCounter name value t).1 = none ∧
      counterValue (SaveCounter name value t).2.counters name =
        counterValue t.counters name + value ∧
      (SaveLatency name values t).1 = none ∧
      latenciesValue (SaveLatency name values t).2.latencies name =
        trimLatencies (latenciesValue t.latencies name ++ values) := by
  refine ⟨by simp [SaveCounter, hinit], by simp [SaveLatency, hinit],
    rfl, fun t ht => ?_⟩
  have ht' : ¬ t.initialized = false := by simp [ht]
  refine ⟨by simp [SaveCounter, ht'], ?_, by simp [SaveLatency, ht'], ?_⟩
  · simp [SaveCounter, ht', counterValue_countersAdd]
  · simp [SaveLatency, ht', latenciesValue_latenciesAdd]

/-- Witness for C10 on a fresh (non-initialized) state and the state right
after `Initialize`. -/
theorem c10_stats_initialization_contract_witness :
    SaveCounter "c" 2 ⟨false, [], []⟩ =
      (some .notInitialized, ⟨false, [], []⟩) ∧
    SaveLatency "c" [7] ⟨false, [], []⟩ =
      (some .notInitialized, ⟨false, [], []⟩) ∧
    (initializeStats ⟨false, [], []⟩).initialized = true ∧
    ∀ t : StatsState, t.initialized = true →
      (SaveCounter "c" 2 t).1 = none ∧
      counterValue (SaveCounter "c" 2 t).2.counters "c" =
        counterValue t.counters "c" + 2 ∧
      (SaveLatency "c" [7] t).1 = none ∧
      latenciesValue (SaveLatency "c" [7] t).2.latencies "c" =
        trimLatencies (latenciesValue t.latencies "c" ++ [7]) :=
  c10_stats_initialization_contract ⟨false, [], []⟩ "c" 2 [7] (by decide)

/-! ## `since` query-parameter handling
(`proxy/controllers/sdk.go` `SplitChanges`/`SegmentChanges`, and the older
`proxy/controllers.go` `splitChanges`/`segmentChanges`; the latter use
`strconv.Atoi`, which on a 64-bit platform is `ParseInt(s, 10, 64)`). -/

/-- Value of a decimal digit character, `none` when the character is not a
digit. -/
def digitVal (c : Char) : Option Nat :=
  if '0' ≤ c ∧ c ≤ '9' then some (c.toNat - '0'.toNat) else none

/-- Base-10 digit run: at least one character, all digits. -/
def parseDigits (cs : List Char) : Option Nat :=
  match cs with
  | [] => none
  | _ =>
    cs.foldl
      (fun acc c =>
        match acc, digitVal c with
        | some n, some d => some (n * 10 + d)
        | _, _ => none)
      (some 0)

def int64Max : Int := 2 ^ 63 - 1

def int64Min : Int := -(2 ^ 63)

/-- Go `strconv.ParseInt(s, 10, 64)`: optional leading sign, a non-empty
run of decimal digits, and a 64-bit range check; `none` models a non-nil
error. -/
def parseInt64 (s : String) : Option Int :=
  let cs := s.toList
  let signAndDigits : Bool × List Char :=
    match cs with
    | '+' :: rest => (false, rest)
    | '-' :: rest => (true, rest)
    | _ => (false, cs)
  match parseDigits signAndDigits.2 with
  | none => none
  | some n =>
      let v : Int := if signAndDigits.1 then -(n : Int) else (n : Int)
      if v < int64Min ∨ int64Max < v then none else some v

/-- `ctx.DefaultQuery("since", "-1")` followed by the parse-or-fallback of
the handlers: an absent parameter takes the default `"-1"`, and a parse
error makes `since = -1`. -/
def resolveSince (q : Option String) : Int :=
  let sinceParam := q.getD "-1"
  match parseInt64 sinceParam with
  | some v => v
  | none => -1

/-- The splitChanges handler's response content as a function of the raw
`since` query parameter: `{since, splits, till}` computed over the stored
rows. -/
def splitChangesResponse (q : Option String) (items : List SplitChangesItem) :
    Int × List SplitChangesItem × Int :=
  let since := resolveSince q
  (since, (fetchSplitsFromDB since items).1, (fetchSplitsFromDB since items).2)

/-- The segmentChanges handler's response content as a function of the raw
`since` query parameter: `{since, added, removed, till}` computed over the
stored key-deltas. -/
def segmentChangesResponse (q : Option String) (keys : List SegmentKey) :
    Int × List String × List String × Int :=
  let since := resolveSince q
  (since, fetchSegmentsFromDB since keys)

theorem resolveSince_default : resolveSince (some "-1") = -1 := by decide

/-- **C9**: a request whose `since` parameter is absent, or is not parseable
as a base-10 64-bit integer, is answered exactly as if `since = -1` had been
supplied — for both the splitChanges and the segmentChanges handlers, and
the parse error never reaches the response. -/
theorem c9_since_parse_fallback (s : String) (hparse : parseInt64 s = none)
    (items : List SplitChangesItem) (keys : List SegmentKey) :
    splitChangesResponse none items = splitChangesResponse (some "-1") items ∧
    splitChangesResponse (some s) items =
      splitChangesResponse (some "-1") items ∧
    segmentChangesResponse none keys =
      segmentChangesResponse (some "-1") keys ∧
    segmentChangesResponse (some s) keys =
      segmentChangesResponse (some "-1") keys := by
  have hnone : resolveSince none = -1 := resolveSince_default
  have hs : resolveSince (some s) = -1 := by
    simp [resolveSince, hparse]
  refine ⟨?_, ?_, ?_, ?_⟩ <;>
    simp [splitChangesResponse, segmentChangesResponse, hnone, hs,
      resolveSince_default]

/-- Witness for C9 at the unparseable parameter `"12a"` with concrete
stored data. -/
theorem c9_since_parse_fallback_witness :
    splitChangesResponse none [⟨"a", "ACTIVE", 7, "{}"⟩] =
      splitChangesResponse (some "-1") [⟨"a", "ACTIVE", 7, "{}"⟩] ∧
    splitChangesResponse (some "12a") [⟨"a", "ACTIVE", 7, "{}"⟩] =
      splitChangesResponse (some "-1") [⟨"a", "ACTIVE", 7, "{}"⟩] ∧
    segmentChangesResponse none [⟨"k", 5, true⟩] =
      segmentChangesResponse (some "-1") [⟨"k", 5, true⟩] ∧
    segmentChangesResponse (some "12a") [⟨"k", 5, true⟩] =
      segmentChangesResponse (some "-1") [⟨"k", 5, true⟩] :=
  c9_since_parse_fallback "12a" (by decide)
    [⟨"a", "ACTIVE", 7, "{}"⟩] [⟨"k", 5, true⟩]

/-! ## Events post task (`src/unnamed/part_001`, `taskPostEvents`).
The Go nested maps `toSend[sdk][ip][mname]` are embedded as an association
list keyed by the `(sdkVersion, machineIP, machineName)` triple, in
insertion order; the claim concerns which POSTs occur and their contents,
not the (randomized) Go map iteration order. -/

/-- The SDK metadata triple (`dtos.Metadata` / `api` metadata fields). -/
structure Metadata where
  sdkVersion : String
  machineIP : String
  machineName : String
deriving DecidableEq, Repr

/-- A stored event popped from the events queue: its origin metadata and an
opaque `EventDTO` payload. -/
structure StoredEvent where
  metadata : Metadata
  event : Nat
deriving DecidableEq, Repr

/-- The skip test of `taskPostEvents`: events with an empty `sdkVersion` or
an empty `machineIP` are dropped (`continue`). -/
def keepEvent (e : StoredEvent) : Bool :=
  !(e.metadata.sdkVersion == "" || e.metadata.machineIP == "")

/-- The grouping key of `taskPostEvents`: the metadata triple after the
`machineName`-defaults-to-"unknown" substitution. -/
def eventKey (e : StoredEvent) : String × String × String :=
  (e.metadata.sdkVersion, e.metadata.machineIP,
    if e.metadata.machineName = "" then "unknown" else e.metadata.machineName)

/-- Append a value under a key in an association list of lists, creating the
entry at the end when the key is new — the behavior of inserting into the
nested Go maps. -/
def upsertAppend {κ α : Type} [DecidableEq κ] :
    List (κ × List α) → κ → α → List (κ × List α)
  | [], k, v => [(k, [v])]
  | (k', vs) :: rest, k, v =>
      if k' = k then (k', vs ++ [v]) :: rest
      else (k', vs) :: upsertAppend rest k v

/-- Look a key up in an association list of lists (missing key reads as the
empty bulk, as for the Go nil slice). -/
def lookupGroup {κ α : Type} [DecidableEq κ] :
    List (κ × List α) → κ → List α
  | [], _ => []
  | (k', vs) :: rest, k => if k' = k then vs else lookupGroup rest k

/-- The grouping loop of `taskPostEvents`: drop events with empty
`sdkVersion` or `machineIP`, group the rest by the normalized metadata
triple, event order preserved within each bulk. Each entry of the result is
the bulk of exactly one `recorderAdapter.Post` call. -/
def groupEvents (events : List StoredEvent) :
    List ((String × String × String) × List Nat) :=
  events.foldl
    (fun acc e =>
      if keepEvent e then upsertAppend acc (eventKey e) e.event else acc)
    []

theorem lookupGroup_upsertAppend_self {κ α : Type} [DecidableEq κ]
    (acc : List (κ × List α)) (k : κ) (v : α) :
    lookupGroup (upsertAppend acc k v) k = lookupGroup acc k ++ [v] := by
  induction acc with
  | nil => simp [upsertAppend, lookupGroup]
  | cons hd tl ih =>
    obtain ⟨k', vs⟩ := hd
    by_cases hk : k' = k
    · simp [upsertAppend, lookupGroup, hk]
    · simp [upsertAppend, lookupGroup, hk, ih]

theorem lookupGroup_upsertAppend_other {κ α : Type} [DecidableEq κ]
    (acc : List (κ × List α)) (k j : κ) (v : α) (hjk : j ≠ k) :
    lookupGroup (upsertAppend acc k v) j = lookupGroup acc j := by
  induction acc with
  | nil =>
    simp only [upsertAppend, lookupGroup]
    rw [if_neg (fun h => hjk h.symm)]
  | cons hd tl ih =>
    obtain ⟨k', vs⟩ := hd
    by_cases hk : k' = k
    · simp only [upsertAppend, if_pos hk, lookupGroup]
      have hkj : ¬ k' = j := fun h => hjk (h.symm.trans hk)
      rw [if_neg hkj, if_neg hkj]
    · simp only [upsertAppend, if_neg hk, lookupGroup]
      by_cases hj : k' = j
      · rw [if_pos hj, if_pos hj]
      · rw [if_neg hj, if_neg hj, ih]

theorem keys_upsertAppend {κ α : Type} [DecidableEq κ]
    (acc : List (κ × List α)) (k : κ) (v : α) :
    (upsertAppend acc k v).map Prod.fst =
      if k ∈ acc.map Prod.fst then acc.map Prod.fst
      else acc.map Prod.fst ++ [k] := by
  induction acc with
  | nil => simp [upsertAppend]
  | cons hd tl ih =>
    obtain ⟨k', vs⟩ := hd
    simp only [List.map_cons]
    by_cases hk : k' = k
    · simp only [upsertAppend, if_pos hk, List.map_cons]
      rw [if_pos (List.mem_cons.mpr (Or.inl hk.symm))]
    · simp only [upsertAppend, if_neg hk, List.map_cons, ih]
      by_cases hmem : k ∈ tl.map Prod.fst
      · rw [if_pos hmem, if_pos (List.mem_cons.mpr (Or.inr hmem))]
      · have hnotin : k ∉ k' :: tl.map Prod.fst := by
          intro hin
          rcases List.mem_cons.mp hin with h | h
          · exact hk (h.symm)
          · exact hmem h
        rw [if_neg hmem, if_neg hnotin, List.cons_append]

theorem nodup_keys_upsertAppend {κ α : Type} [DecidableEq κ]
    (acc : List (κ × List α)) (k : κ) (v : α)
    (h : (acc.map Prod.fst).Nodup) :
    ((upsertAppend acc k v).map Prod.fst).Nodup := by
  rw [keys_upsertAppend]
  by_cases hmem : k ∈ acc.map Prod.fst
  · rwa [if_pos hmem]
  · rw [if_neg hmem, List.nodup_append]
    exact ⟨h, List.nodup_singleton k,
      fun a ha hak => hmem ((List.mem_singleton.mp hak) ▸ ha)⟩

theorem groupEvents_fold_lookup (events : List StoredEvent)
    (k : String × String × String) :
    ∀ acc : List ((String × String × String) × List Nat),
    lookupGroup (events.foldl
        (fun acc e =>
          if keepEvent e then upsertAppend acc (eventKey e) e.event else acc)
        acc) k =
      lookupGroup acc k ++
        ((events.filter (fun e => keepEvent e && decide (eventKey e = k))).map
          (·.event)) := by
  induction events with
  | nil => intro acc; simp
  | cons e tl ih =>
    intro acc
    simp only [List.foldl_cons, List.filter_cons]
    by_cases hkeep : keepEvent e = true
    · by_cases hkey : eventKey e = k
      · have hcond : (keepEvent e && decide (eventKey e = k)) = true := by
          simp [hkeep, hkey]
        rw [if_pos hkeep, ih, if_pos hcond, List.map_cons, hkey,
          lookupGroup_upsertAppend_self]
        simp
      · have hcond : ¬ (keepEvent e && decide (eventKey e = k)) = true := by
          simp [hkey]
        rw [if_pos hkeep, ih,
          lookupGroup_upsertAppend_other _ _ _ _ (fun h => hkey h.symm),
          if_neg hcond]
    · have hf : keepEvent e = false := by
        revert hkeep; cases keepEvent e <;> simp
      have hcond : ¬ (keepEvent e && decide (eventKey e = k)) = true := by
        simp [hf]
      rw [if_neg hkeep, ih, if_neg hcond]

theorem groupEvents_fold_keys (events : List StoredEvent)
    (k : String × String × String) :
    ∀ acc : List ((String × String × String) × List Nat),
    (k ∈ (events.foldl
        (fun acc e =>
          if keepEvent e then upsertAppend acc (eventKey e) e.event else acc)
        acc).map Prod.fst ↔
      k ∈ acc.map Prod.fst ∨
        ∃ e ∈ events, keepEvent e = true ∧ eventKey e = k) := by
  induction events with
  | nil => intro acc; simp
  | cons e tl ih =>
    intro acc
    simp only [List.foldl_cons]
    by_cases hkeep : keepEvent e = true
    · rw [if_pos hkeep, ih, keys_upsertAppend]
      by_cases hmem : eventKey e ∈ acc.map Prod.fst
      · rw [if_pos hmem]
        constructor
        · rintro (h | ⟨e', he', hk', hkey'⟩)
          · exact Or.inl h
          · exact Or.inr ⟨e', List.mem_cons_of_mem _ he', hk', hkey'⟩
        · rintro (h | ⟨e', he', hk', hkey'⟩)
          · exact Or.inl h
          · rcases List.mem_cons.mp he' with rfl | he''
            · exact Or.inl (hkey' ▸ hmem)
            · exact Or.inr ⟨e', he'', hk', hkey'⟩
      · rw [if_neg hmem]
        constructor
        · rintro (h | ⟨e', he', hk', hkey'⟩)
          · rcases List.mem_append.mp h with h | h
            · exact Or.inl h
            · exact Or.inr ⟨e, List.mem_cons_self e tl, hkeep,
                (List.mem_singleton.mp h).symm⟩
          · exact Or.inr ⟨e', List.mem_cons_of_mem _ he', hk', hkey'⟩
        · rintro (h | ⟨e', he', hk', hkey'⟩)
          · exact Or.inl (List.mem_append.mpr (Or.inl h))
          · rcases List.mem_cons.mp he' with rfl | he''
            · exact Or.inl (List.mem_append.mpr
                (Or.inr (List.mem_singleton.mpr hkey'.symm)))
            · exact Or.inr ⟨e', he'', hk', hkey'⟩
    · rw [if_neg hkeep, ih]
      constructor
      · rintro (h | ⟨e', he', hk', hkey'⟩)
        · exact Or.inl h
        · exact Or.inr ⟨e', List.mem_cons_of_mem _ he', hk', hkey'⟩
      · rintro (h | ⟨e', he', hk', hkey'⟩)
        · exact Or.inl h
        · rcases List.mem_cons.mp he' with rfl | he''
          · exact absurd hk' hkeep
          · exact Or.inr ⟨e', he'', hk', hkey'⟩

theorem groupEvents_fold_nodup (events : List StoredEvent) :
    ∀ acc : List ((String × String × String) × List Nat),
    (acc.map Prod.fst).Nodup →
    ((events.foldl
        (fun acc e =>
          if keepEvent e then upsertAppend acc (eventKey e) e.event else acc)
        acc).map Prod.fst).Nodup := by
  induction events with
  | nil => intro acc h; simpa using h
  | cons e tl ih =>
    intro acc h
    by_cases hkeep : keepEvent e
    · simp only [List.foldl_cons, if_pos hkeep]
      exact ih _ (nodup_keys_upsertAppend acc (eventKey e) e.event h)
    · simp only [List.foldl_cons, if_neg hkeep]
      exact ih acc h

/-- **C7**: events with empty `sdkVersion` or empty `machineIP` are dropped;
an empty `machineName` is replaced by `"unknown"`; the remaining events are
grouped by the exact normalized `(sdkVersion, machineIP, machineName)`
triple; the post keys are distinct (one POST per distinct triple, exactly
for the triples of kept events), and the bulk of the POST for a triple
contains all and only the events of that triple, in order. -/
theorem c7_event_grouping (events : List StoredEvent)
    (k : String × String × String) :
    ((groupEvents events).map Prod.fst).Nodup ∧
    (k ∈ (groupEvents events).map Prod.fst ↔
      ∃ e ∈ events, keepEvent e = true ∧ eventKey e = k) ∧
    lookupGroup (groupEvents events) k =
      ((events.filter (fun e => keepEvent e && decide (eventKey e = k))).map
        (·.event)) := by
  refine ⟨groupEvents_fold_nodup events [] (by simp), ?_, ?_⟩
  · simpa using groupEvents_fold_keys events k []
  · simpa [lookupGroup] using groupEvents_fold_lookup events k []

/-! ## Impression recorder (`splitio/producer/worker/impression.go`) -/

/-- The error domain of the impressions worker: HTTP errors from upstream
(`dtos.HTTPError`), the distinguished flush-busy error, and other errors. -/
inductive SyncError
  | http (code : Nat)
  | busy
  | generic (msg : String)
deriving DecidableEq, Repr

/-- The telemetry recorded by `recordImpressions`: sync-error codes
(`RecordSyncError`), and the counts of `RecordSyncLatency` and
`RecordSuccessfulSync` calls. -/
structure RecorderTelemetry where
  syncErrorCodes : List Nat
  syncLatencyCount : Nat
  successfulSyncCount : Nat
deriving DecidableEq, Repr

/-- Observable trace of a `recordImpressions` run: how many upstream
`Record` calls were made, which upstream errors were merely logged, and the
telemetry produced. -/
structure RecordTrace where
  recordCalls : Nat
  loggedErrors : List SyncError
  telemetry : RecorderTelemetry
deriving DecidableEq, Repr

/-- Modelled from the spec: `common.WithAttempts` (go-toolkit, not under
src) — invoke `fn` up to `n` times, stopping at the first nil result,
returning the last result. -/
def withAttempts {σ : Type} :
    Nat → (σ → Option SyncError × σ) → σ → Option SyncError × σ
  | 0, _, s => (none, s)
  | n + 1, fn, s =>
      match fn s with
      | (none, s') => (none, s')
      | (some e, s') => if n = 0 then (some e, s') else withAttempts n fn s'

/-- The retry callback of `recordImpressions` (impression.go): it performs
the upstream `Record` call (outcome given by `recordOutcome`, indexed by the
overall call count), logs a non-nil error — and returns nil regardless, so
the `Record` error never reaches `WithAttempts`. -/
def impressionsAttempt (recordOutcome : Nat → Option SyncError)
    (tr : RecordTrace) : Option SyncError × RecordTrace :=
  let result := recordOutcome tr.recordCalls
  let tr' : RecordTrace :=
    { tr with
      recordCalls := tr.recordCalls + 1
      loggedErrors :=
        match result with
        | some e => tr.loggedErrors ++ [e]
        | none => tr.loggedErrors }
  (none, tr')

/-- `recordImpressions` (impression.go): for each metadata group, run the
upstream post under `WithAttempts 3`; a non-nil result records sync-error
telemetry for HTTP errors and is returned; a nil result records
sync-latency and successful-sync telemetry and the loop continues. -/
def recordImpressions (recordOutcome : Nat → Option SyncError) :
    List (Metadata × List Nat) → RecordTrace → Option SyncError × RecordTrace
  | [], tr => (none, tr)
  | _bulk :: rest, tr =>
      match withAttempts 3 (impressionsAttempt recordOutcome) tr with
      | (some e, tr') =>
          let tr'' :=
            match e with
            | SyncError.http code =>
                { tr' with telemetry :=
                    { tr'.telemetry with
                      syncErrorCodes :=
                        tr'.telemetry.syncErrorCodes ++ [code] } }
            | _ => tr'
          (some e, tr'')
      | (none, tr') =>
          let tr'' :=
            { tr' with telemetry :=
                { tr'.telemetry with
                  syncLatencyCount := tr'.telemetry.syncLatencyCount + 1
                  successfulSyncCount :=
                    tr'.telemetry.successfulSyncCount + 1 } }
          recordImpressions recordOutcome rest tr''

/-- An upstream recorder whose every `Record` call fails with HTTP 500 — a
transient error on every attempt. -/
def alwaysFail500 : Nat → Option SyncError := fun _ => SyncError.http 500

def emptyRecordTrace : RecordTrace := ⟨0, [], ⟨[], 0, 0⟩⟩

/-- **C3** evaluated at the failing input: one metadata bulk whose upstream
`Record` always fails with HTTP 500. The run returns nil (the final error
is NOT surfaced), performs exactly one `Record` call (not 3 — the callback
reports success to `WithAttempts` on the first attempt), records no
sync-error telemetry, and records sync-latency and successful-sync
telemetry as if the post had succeeded; the failure is only logged. This
contradicts the claimed retry-and-surface behavior (the spec itself flags
the swallowed error as a bug in §9). -/
theorem c3_retry_error_swallowed :
    recordImpressions alwaysFail500
        [(⟨"go-1.1", "10.0.0.1", "m1"⟩, [1, 2])] emptyRecordTrace =
      (none, ⟨1, [SyncError.http 500], ⟨[], 1, 1⟩⟩) := by
  rfl

/-! ## Operation gate and the impressions sync/flush entry points
(`SynchronizeImpressions` / `FlushImpressions` in impression.go; the gate
primitives live in the `task` package, which is not under src, and are
modelled from §4.6 of the spec). -/

/-- The operation kinds of the process-wide gate (§4.6). -/
inductive OperationKind
  | splits
  | segments
  | impressions
  | events
  | telemetry
deriving DecidableEq, Repr

/-- Modelled from the spec: the operation-gate state (§4.6) — the set of
operation kinds currently owned, embedded as a list. -/
structure GateState where
  running : List OperationKind
deriving DecidableEq, Repr

/-- Modelled from the spec: `isRunning(kind)` — non-blocking query
(`task.IsOperationRunning`). -/
def isOperationRunning (k : OperationKind) (g : GateState) : Bool :=
  decide (k ∈ g.running)

/-- Modelled from the spec: `request(kind)` — attempt to take exclusive
ownership, reporting whether it was acquired (`task.RequestOperation`). -/
def requestOperation (k : OperationKind) (g : GateState) : Bool × GateState :=
  if k ∈ g.running then (false, g) else (true, ⟨k :: g.running⟩)

/-- Modelled from the spec: `finish(kind)` — release ownership
(`task.FinishOperation`). -/
def finishOperation (k : OperationKind) (g : GateState) : GateState :=
  ⟨g.running.erase k⟩

/-- The pipeline state of the impressions worker: the stored-impressions
queue (`ImpressionStorageConsumer`) and the observable record trace. -/
structure SyncState where
  queue : List (Metadata × Nat)
  trace : RecordTrace
deriving DecidableEq, Repr

/-- `fetch` (impression.go): `PopNWithMetadata(bulkSize)` pops up to
`bulkSize` stored impressions and groups them by metadata.
(`ImpressionManager.ProcessImpressions` lives in go-split-commons, outside
src; modelled from the spec's DEBUG mode, in which every impression is
forwarded.) -/
def fetchImpressions (bulkSize : Int) (queue : List (Metadata × Nat)) :
    List (Metadata × List Nat) × List (Metadata × Nat) :=
  ((queue.take bulkSize.toNat).foldl
      (fun acc mi => upsertAppend acc mi.1 mi.2) [],
   queue.drop bulkSize.toNat)

/-- `synchronizeImpressions` (impression.go): fetch a bulk from storage and
record it upstream (the listener fan-out is optional and not claim
relevant). -/
def synchronizeImpressions (recordOutcome : Nat → Option SyncError)
    (bulkSize : Int) (st : SyncState) : Option SyncError × SyncState :=
  let fetched := fetchImpressions bulkSize st.queue
  let recorded := recordImpressions recordOutcome fetched.1 st.trace
  (recorded.1, ⟨fetched.2, recorded.2⟩)

/-- `SynchronizeImpressions` (impression.go): the scheduled entry point —
when the Impressions operation is running, return nil immediately without
touching the queue or posting. -/
def SynchronizeImpressions (recordOutcome : Nat → Option SyncError)
    (bulkSize : Int) (g : GateState) (st : SyncState) :
    Option SyncError × SyncState :=
  if isOperationRunning OperationKind.impressions g then (none, st)
  else synchronizeImpressions recordOutcome bulkSize st

/-- Modelled from the spec: `splitio.DefaultSize` — the per-batch bulk-size
constant (the `splitio` constants file is not under src; its exact positive
value is irrelevant to the gate claim and positivity makes the drain loop
terminate exactly as Go's positive constant does). -/
def defaultSize : Int := 5000

/-- Modelled from the spec: `splitio.MaxSizeToFlush` — the cap used when a
flush is requested with `bulkSize = 0`. -/
def maxSizeToFlush : Int := 25000

/-- The drain loop of `FlushImpressions` (impression.go): while elements
remain to flush and the queue is non-empty, synchronize batches of at most
`defaultSize`, stopping at the first error. -/
def flushImpressionsLoop (recordOutcome : Nat → Option SyncError)
    (elementsToFlush : Int) (st : SyncState) : Option SyncError × SyncState :=
  if h : 0 < elementsToFlush ∧ 0 < st.queue.length then
    let maxSize :=
      if elementsToFlush < defaultSize then elementsToFlush else defaultSize
    let step := synchronizeImpressions recordOutcome maxSize st
    match step.1 with
    | some e => (some e, step.2)
    | none =>
        flushImpressionsLoop recordOutcome (elementsToFlush - defaultSize)
          step.2
  else (none, st)
termination_by elementsToFlush.toNat
decreasing_by
  simp only [defaultSize]
  omega

/-- `FlushImpressions` (impression.go): request the Impressions operation —
failing fast with the distinguished busy error when denied — then drain up
to `bulkSize` (or `MaxSizeToFlush` when 0) elements and release the
operation on exit (`defer FinishOperation`). Returns the result together
with the final gate and pipeline state. -/
def FlushImpressions (recordOutcome : Nat → Option SyncError)
    (bulkSize : Int) (g : GateState) (st : SyncState) :
    Option SyncError × GateState × SyncState :=
  let req := requestOperation OperationKind.impressions g
  if req.1 then
    let elementsToFlush := if bulkSize ≠ 0 then bulkSize else maxSizeToFlush
    let res := flushImpressionsLoop recordOutcome elementsToFlush st
    (res.1, finishOperation OperationKind.impressions req.2, res.2)
  else (SyncError.busy, req.2, st)

/-- **C6** (operation gate contract for Impressions): a scheduled
`SynchronizeImpressions` that finds the Impressions operation running
returns nil immediately with the queue undrained and nothing posted; a
`FlushImpressions` that fails to acquire the operation returns the
distinguished busy error immediately with gate and state untouched; and a
`FlushImpressions` that acquires the operation has released it by the time
it returns. -/
theorem c6_operation_gate_contract (recordOutcome : Nat → Option SyncError)
    (bulkSize : Int) (g : GateState) (st : SyncState) :
    (isOperationRunning OperationKind.impressions g = true →
      SynchronizeImpressions recordOutcome bulkSize g st = (none, st) ∧
      (FlushImpressions recordOutcome bulkSize g st).1 =
        some SyncError.busy ∧
      (FlushImpressions recordOutcome bulkSize g st).2 = (g, st)) ∧
    (isOperationRunning OperationKind.impressions g = false →
      isOperationRunning OperationKind.impressions
        (FlushImpressions recordOutcome bulkSize g st).2.1 = false) := by
  constructor
  · intro h
    have hin : OperationKind.impressions ∈ g.running := by
      simpa [isOperationRunning] using h
    refine ⟨by simp [SynchronizeImpressions, h], ?_, ?_⟩
    · simp [FlushImpressions, requestOperation, hin]
    · simp [FlushImpressions, requestOperation, hin]
  · intro h
    have hnin : OperationKind.impressions ∉ g.running := by
      simpa [isOperationRunning] using h
    simp [FlushImpressions, requestOperation, hnin, finishOperation,
      isOperationRunning, List.erase_cons_head]

/-- Witness for C6: a busy gate makes the scheduled sync a no-op and the
flush fail fast; a free gate is free again after the flush returns. -/
theorem c6_operation_gate_contract_witness :
    (SynchronizeImpressions (fun _ => none) 0 ⟨[OperationKind.impressions]⟩
        ⟨[], ⟨0, [], ⟨[], 0, 0⟩⟩⟩ = (none, ⟨[], ⟨0, [], ⟨[], 0, 0⟩⟩⟩) ∧
      (FlushImpressions (fun _ => none) 0 ⟨[OperationKind.impressions]⟩
          ⟨[], ⟨0, [], ⟨[], 0, 0⟩⟩⟩).1 = some SyncError.busy ∧
      (FlushImpressions (fun _ => none) 0 ⟨[OperationKind.impressions]⟩
          ⟨[], ⟨0, [], ⟨[], 0, 0⟩⟩⟩).2 =
        (⟨[OperationKind.impressions]⟩, ⟨[], ⟨0, [], ⟨[], 0, 0⟩⟩⟩)) ∧
    isOperationRunning OperationKind.impressions
      (FlushImpressions (fun _ => none) 0 ⟨[]⟩
        ⟨[], ⟨0, [], ⟨[], 0, 0⟩⟩⟩).2.1 = false :=
  ⟨(c6_operation_gate_contract (fun _ => none) 0
      ⟨[OperationKind.impressions]⟩ ⟨[], ⟨0, [], ⟨[], 0, 0⟩⟩⟩).1 (by decide),
   (c6_operation_gate_contract (fun _ => none) 0
      ⟨[]⟩ ⟨[], ⟨0, [], ⟨[], 0, 0⟩⟩⟩).2 (by decide)⟩

/-! ## Proxy split storage with recipe summaries
(`splitio/proxy/storage/splits.go` `ChangesSince`, and
`splitio/proxy/controllers/sdk.go` `fetchSplitChangesSince`). -/

/-- `dtos.SplitDTO` restricted to the fields the claims touch. -/
structure SplitDTO where
  name : String
  status : String
  changeNumber : Int
deriving DecidableEq, Repr

/-- `dtos.SplitChangesDTO`. -/
structure SplitChangesDTO where
  since : Int
  till : Int
  splits : List SplitDTO
deriving DecidableEq, Repr

/-- `optimized.ChangeSummary`: the updated and removed names recorded for
one change number. -/
structure ChangeSummary where
  updated : List String
  removed : List String
deriving DecidableEq, Repr

/-- Errors of the proxy split storage: `ErrSummaryNotCached` and wrapped
unexpected errors. -/
inductive StorageError
  | summaryNotCached
  | generic (msg : String)
deriving DecidableEq, Repr

/-- The `ProxySplitStorageImpl` state: snapshot change number, in-memory
snapshot, and the retained recipes keyed by change number. -/
structure ProxySplitStorageState where
  snapshotChangeNumber : Int
  snapshot : List SplitDTO
  recipes : List (Int × ChangeSummary)
deriving DecidableEq, Repr

/-- The oldest retained recipe change number; `none` when no recipe is
retained. -/
def oldestRecipeCn (recipes : List (Int × ChangeSummary)) : Option Int :=
  recipes.foldl
    (fun acc r =>
      match acc with
      | none => some r.1
      | some m => some (min m r.1))
    none

/-- Modelled from the spec: `optimized.SplitChangesSummaries.FetchSince`
(the `proxy/storage/optimized` package is not under src). Per §3, a query
for a `since` older than the oldest retained recipe fails with
`SummaryNotCached`; otherwise the updated/removed names of all recipes with
`cn > since` are merged and `till` is the newest retained change number. -/
def fetchSinceSummaries (recipes : List (Int × ChangeSummary))
    (since : Int) : Except StorageError (ChangeSummary × Int) :=
  match oldestRecipeCn recipes with
  | none => .error .summaryNotCached
  | some m =>
      if since < m then .error .summaryNotCached
      else
        let newer := recipes.filter (fun r => decide (since < r.1))
        .ok
          (⟨(newer.map (fun r => r.2.updated)).flatten,
            (newer.map (fun r => r.2.removed)).flatten⟩,
           recipes.foldl (fun t r => max t r.1) since)

/-- Modelled from the spec: `optimized.BuildArchivedSplitsFor` (not under
src) — archived tombstones for the removed names of a summary. The spec
does not write out the tombstone's change number, but its §8 invariant 3
requires every returned split to be newer than the served `since`, and
scenario S2 shows a tombstone answered at the payload's `till`; the
tombstone therefore carries `till` (the newest retained change number,
which exceeds any `since` whose summary contains a removal — proved in
`c1_since_till_contract`). -/
def buildArchivedSplitsFor (till : Int) (names : List String) :
    List SplitDTO :=
  names.map (fun n => ⟨n, "ARCHIVED", till⟩)

/-- `ChangesSince` (splits.go): `since = -1` returns the whole snapshot
with the current change number; otherwise a summary is fetched —
propagating `ErrSummaryNotCached` verbatim, wrapping other errors — and the
payload is built from the snapshot entries named by the summary plus
archived tombstones. -/
def ChangesSince (st : ProxySplitStorageState) (since : Int) :
    Except StorageError SplitChangesDTO :=
  if since = -1 then
    .ok ⟨since, st.snapshotChangeNumber, st.snapshot⟩
  else
    match fetchSinceSummaries st.recipes since with
    | .error e =>
        if e = .summaryNotCached then .error .summaryNotCached
        else .error (.generic "unexpected error when fetching changes summary")
    | .ok su =>
        .ok ⟨since, su.2,
          st.snapshot.filter (fun s => decide (s.name ∈ su.1.updated)) ++
            buildArchivedSplitsFor su.2 su.1.removed⟩

/-- The summary derived from a fetched payload: non-archived splits as
updated, archived ones as removed. -/
def summaryOfPayload (p : SplitChangesDTO) : ChangeSummary :=
  ⟨(p.splits.filter (fun s => !(s.status == "ARCHIVED"))).map (·.name),
   (p.splits.filter (fun s => s.status == "ARCHIVED")).map (·.name)⟩

/-- Modelled from the spec: `RegisterOlderCn` (not under src) — registers
the fetched payload's older change number into the recipe cache so that
future polls at that `since` are cache hits (§2 data flow, scenario S6). -/
def registerOlderCn (st : ProxySplitStorageState) (p : SplitChangesDTO) :
    ProxySplitStorageState :=
  { st with recipes := (p.since, summaryOfPayload p) :: st.recipes }

/-- `fetchSplitChangesSince` (sdk.go): serve from storage; on
`ErrSummaryNotCached` fall back to the upstream fetcher (whose outcome is
the `fetchResult` argument) and register the older change number on
success; wrap any other error. -/
def fetchSplitChangesSince (st : ProxySplitStorageState) (since : Int)
    (fetchResult : Except StorageError SplitChangesDTO) :
    Except StorageError SplitChangesDTO × ProxySplitStorageState :=
  match ChangesSince st since with
  | .ok p => (.ok p, st)
  | .error e =>
      if e ≠ .summaryNotCached then
        (.error (.generic
          "unexpected error fetching split changes from storage"), st)
      else
        match fetchResult with
        | .ok p => (.ok p, registerOlderCn st p)
        | .error _ =>
            (.error (.generic
              "unexpected error fetching split changes from storage"), st)

/-- **C2**: when `since ≥ 0` is older than the oldest retained recipe,
`ChangesSince` returns the `SummaryNotCached` error and no payload; the
splitChanges handler then falls back to the upstream fetch, and when the
fetch succeeds it registers the resulting older change number into the
recipe cache and returns the fetched payload to the caller. -/
theorem c2_summary_not_cached_fallback (st : ProxySplitStorageState)
    (since m : Int) (p : SplitChangesDTO) (hsince : 0 ≤ since)
    (hm : oldestRecipeCn st.recipes = some m) (hold : since < m) :
    ChangesSince st since = .error .summaryNotCached ∧
    fetchSplitChangesSince st since (.ok p) = (.ok p, registerOlderCn st p) ∧
    (p.since, summaryOfPayload p) ∈ (registerOlderCn st p).recipes := by
  have hne : ¬ since = -1 := by omega
  have hfetch : fetchSinceSummaries st.recipes since =
      .error .summaryNotCached := by
    simp [fetchSinceSummaries, hm, hold]
  have hcs : ChangesSince st since = .error .summaryNotCached := by
    simp [ChangesSince, hne, hfetch]
  refine ⟨hcs, ?_, ?_⟩
  · simp [fetchSplitChangesSince, hcs]
  · simp [registerOlderCn]

/-- Witness for C2: a storage whose oldest retained recipe is at change
number 5, polled at `since = 1`, with an upstream payload at since 1. -/
theorem c2_summary_not_cached_fallback_witness :
    ChangesSince ⟨10, [⟨"a", "ACTIVE", 10⟩], [(5, ⟨["a"], []⟩)]⟩ 1 =
      .error .summaryNotCached ∧
    fetchSplitChangesSince ⟨10, [⟨"a", "ACTIVE", 10⟩], [(5, ⟨["a"], []⟩)]⟩ 1
        (.ok ⟨1, 10, [⟨"a", "ACTIVE", 10⟩]⟩) =
      (.ok ⟨1, 10, [⟨"a", "ACTIVE", 10⟩]⟩,
        registerOlderCn ⟨10, [⟨"a", "ACTIVE", 10⟩], [(5, ⟨["a"], []⟩)]⟩
          ⟨1, 10, [⟨"a", "ACTIVE", 10⟩]⟩) ∧
    ((1 : Int), summaryOfPayload ⟨1, 10, [⟨"a", "ACTIVE", 10⟩]⟩) ∈
      (registerOlderCn ⟨10, [⟨"a", "ACTIVE", 10⟩], [(5, ⟨["a"], []⟩)]⟩
        ⟨1, 10, [⟨"a", "ACTIVE", 10⟩]⟩).recipes :=
  c2_summary_not_cached_fallback
    ⟨10, [⟨"a", "ACTIVE", 10⟩], [(5, ⟨["a"], []⟩)]⟩ 1 5
    ⟨1, 10, [⟨"a", "ACTIVE", 10⟩]⟩ (by decide) (by decide) (by decide)

/-! ## The since-till contract across both changesSince implementations -/

/-- Recipe↔mirror coherence (spec §8 invariant 2, §5 ordering): a name
recorded as updated by the recipe at `cn` is present in the mirror only at
version `cn` or newer — change numbers only increase, and the recipe cache
and the mirror are updated together under the writer lock. -/
def RecipesCoherent (st : ProxySplitStorageState) : Prop :=
  ∀ cs ∈ st.recipes, ∀ name ∈ cs.2.updated, ∀ s ∈ st.snapshot,
    s.name = name → cs.1 ≤ s.changeNumber

instance (st : ProxySplitStorageState) : Decidable (RecipesCoherent st) := by
  unfold RecipesCoherent; infer_instance

theorem le_foldlMaxCn (recipes : List (Int × ChangeSummary)) :
    ∀ t : Int, t ≤ recipes.foldl (fun a r => max a r.1) t := by
  induction recipes with
  | nil => intro t; exact le_rfl
  | cons r tl ih =>
    intro t
    simp only [List.foldl_cons]
    exact le_trans (le_max_left t r.1) (ih (max t r.1))

theorem mem_le_foldlMaxCn (recipes : List (Int × ChangeSummary))
    (r : Int × ChangeSummary) :
    r ∈ recipes → ∀ t : Int,
      r.1 ≤ recipes.foldl (fun a x => max a x.1) t := by
  induction recipes with
  | nil => intro hr; cases hr
  | cons x tl ih =>
    intro hr t
    simp only [List.foldl_cons]
    rcases List.mem_cons.mp hr with h | hmem
    · subst h
      exact le_trans (le_max_right t r.1) (le_foldlMaxCn tl (max t r.1))
    · exact ih hmem (max t x.1)

theorem fetchSinceSummaries_ok (recipes : List (Int × ChangeSummary))
    (since : Int) (su : ChangeSummary) (till : Int)
    (h : fetchSinceSummaries recipes since = .ok (su, till)) :
    till = recipes.foldl (fun t r => max t r.1) since ∧
    su.updated = ((recipes.filter (fun r => decide (since < r.1))).map
      (fun r => r.2.updated)).flatten ∧
    su.removed = ((recipes.filter (fun r => decide (since < r.1))).map
      (fun r => r.2.removed)).flatten := by
  unfold fetchSinceSummaries at h
  split at h
  · exact Except.noConfusion h
  · split at h
    · exact Except.noConfusion h
    · simp only [Except.ok.injEq, Prod.mk.injEq] at h
      obtain ⟨hsu, ht⟩ := h
      subst hsu
      subst ht
      exact ⟨rfl, rfl, rfl⟩

/-- **C1** (since-till contract): for every `since ≥ 0`, both
implementations of `changesSince` meet the contract — the returned `till`
is at least `since` and no returned split has `changeNumber ≤ since`. The
legacy `fetchSplitsFromDB` path satisfies it unconditionally; the
`ProxySplitStorageImpl.ChangesSince` path satisfies it on every state with
recipe↔mirror coherence (a name recorded as updated at `cn` sits in the
mirror at version `cn` or newer), for every payload it returns. -/
theorem c1_since_till_contract (since : Int) (items : List SplitChangesItem)
    (st : ProxySplitStorageState) (hsince : 0 ≤ since)
    (hcoh : RecipesCoherent st) :
    (since ≤ (fetchSplitsFromDB since items).2 ∧
      ∀ s ∈ (fetchSplitsFromDB since items).1, ¬ s.changeNumber ≤ since) ∧
    (∀ p, ChangesSince st since = .ok p →
      since ≤ p.till ∧ ∀ s ∈ p.splits, ¬ s.changeNumber ≤ since) := by
  constructor
  · have h := fetchSplitsFromDB_invariant since items ([], since) le_rfl
      (by intro s hs; simp at hs)
    exact ⟨h.1, fun s hs => not_le_of_lt (h.2 s hs)⟩
  · intro p hp
    have hne : ¬ since = -1 := by omega
    unfold ChangesSince at hp
    rw [if_neg hne] at hp
    split at hp
    · split at hp <;> exact Except.noConfusion hp
    · rename_i su heq
      obtain ⟨summary, till⟩ := su
      obtain ⟨ht, hupd, hrem⟩ :=
        fetchSinceSummaries_ok st.recipes since summary till heq
      cases hp
      constructor
      · show since ≤ till
        rw [ht]
        exact le_foldlMaxCn st.recipes since
      · intro s hs
        rcases List.mem_append.mp hs with hmem | hmem
        · obtain ⟨hsnap, hname⟩ := List.mem_filter.mp hmem
          have hname' : s.name ∈ summary.updated := of_decide_eq_true hname
          rw [hupd] at hname'
          obtain ⟨ul, hul, hnul⟩ := List.mem_flatten.mp hname'
          obtain ⟨r, hrf, rfl⟩ := List.mem_map.mp hul
          obtain ⟨hrin, hrdec⟩ := List.mem_filter.mp hrf
          have hrlt : since < r.1 := of_decide_eq_true hrdec
          have hcn := hcoh r hrin s.name hnul s hsnap rfl
          omega
        · simp only [buildArchivedSplitsFor, List.mem_map] at hmem
          obtain ⟨n, hn, rfl⟩ := hmem
          show ¬ till ≤ since
          rw [hrem] at hn
          obtain ⟨rl, hrl, hnrl⟩ := List.mem_flatten.mp hn
          obtain ⟨r, hrf, rfl⟩ := List.mem_map.mp hrl
          obtain ⟨hrin, hrdec⟩ := List.mem_filter.mp hrf
          have hrlt : since < r.1 := of_decide_eq_true hrdec
          have hle : r.1 ≤ st.recipes.foldl (fun a x => max a x.1) since :=
            mem_le_foldlMaxCn st.recipes r hrin since
          omega

/-- Witness for C1: the legacy path at `since = 10` with one active split
at 12, and the recipe path at `since = 10` on a coherent state whose
recipes update `a` at 10 and remove `b` at 20. -/
theorem c1_since_till_contract_witness :
    (((10 : Int) ≤ (fetchSplitsFromDB 10 [⟨"a", "ACTIVE", 12, "{}"⟩]).2 ∧
      ∀ s ∈ (fetchSplitsFromDB 10 [⟨"a", "ACTIVE", 12, "{}"⟩]).1,
        ¬ s.changeNumber ≤ 10) ∧
    (∀ p, ChangesSince ⟨20, [⟨"a", "ACTIVE", 10⟩],
        [(10, ⟨["a"], []⟩), (20, ⟨[], ["b"]⟩)]⟩ 10 = .ok p →
      (10 : Int) ≤ p.till ∧ ∀ s ∈ p.splits, ¬ s.changeNumber ≤ 10)) :=
  c1_since_till_contract 10 [⟨"a", "ACTIVE", 12, "{}"⟩]
    ⟨20, [⟨"a", "ACTIVE", 10⟩], [(10, ⟨["a"], []⟩), (20, ⟨[], ["b"]⟩)]⟩
    (by decide) (by decide)

end SplitSync
